import Mathlib

set_option autoImplicit false

/-!
Verification development for the ZigChain transfer monitor.

The definitions below are a shallow embedding of the TypeScript sources:
the event normalizer, dedup ledger, context-enrichment client and ingestion
coordinator of `TransferMonitor`, and the subscription/backoff logic of
`ZigWebSocketClient`.  JavaScript values flowing through the monitor are
modelled by an inductive `Json` type; JavaScript string/number semantics
(truthiness, `String(...)` conversion, `trim`, `toLowerCase`, base64
decoding) are modelled explicitly.  BigInt amounts are modelled as `Nat`
(they are produced only from digit strings, hence non-negative).
-/

namespace Monitor

/-- Model of a parsed JSON value (the result of `JSON.parse`). -/
inductive Json where
  | null
  | bool (b : Bool)
  | num (n : Int)
  | str (s : String)
  | arr (items : List Json)
  | obj (fields : List (String × Json))

/-- Field lookup in an object.  `JSON.parse` keeps the last occurrence of a
duplicated key, so the lookup scans from the right. -/
def lookupField (fields : List (String × Json)) (k : String) : Option Json :=
  match fields.reverse.find? (fun p => p.1 == k) with
  | some p => some p.2
  | none => none

/-- Model of `asRecord`: a value is a record iff it is a non-null,
non-array object. -/
def asRecord : Json → Option (List (String × Json))
  | .obj fields => some fields
  | _ => none

/-- Field access on an optional record, modelling `rec?.field`. -/
def recGet (rec : Option (List (String × Json))) (k : String) : Option Json :=
  match rec with
  | some fields => lookupField fields k
  | none => none

/-- JavaScript truthiness of a JSON value. -/
def jsTruthy : Json → Bool
  | .null => false
  | .bool b => b
  | .num n => n != 0
  | .str s => s != ""
  | .arr _ => true
  | .obj _ => true

mutual
/-- Model of the JavaScript `String(...)` conversion on JSON values. -/
def jsToString : Json → String
  | .null => "null"
  | .bool b => if b then "true" else "false"
  | .num n => toString n
  | .str s => s
  | .arr items => String.intercalate "," (jsToStringList items)
  | .obj _ => "[object Object]"

def jsToStringList : List Json → List String
  | [] => []
  | j :: rest => jsToString j :: jsToStringList rest
end

/-- Model of `String(x ?? "")`: a missing field or an explicit `null`
becomes the empty string. -/
def jsStringOrEmpty : Option Json → String
  | none => ""
  | some .null => ""
  | some j => jsToString j

/-- Model of `String(x || "")`: any falsy value becomes the empty string. -/
def jsOrEmptyStr : Option Json → String
  | none => ""
  | some j => if jsTruthy j then jsToString j else ""

/-- Model of `stringArray`: keep only the string elements of an array. -/
def stringArray : Option Json → List String
  | some (.arr items) =>
    items.filterMap (fun j => match j with | .str s => some s | _ => none)
  | _ => []

/-- Model of `firstArrayValue`: the first element of a non-empty array if
it is a string, else `null`. -/
def firstArrayValue : Option Json → Option String
  | some (.arr (x :: _)) => match x with | .str s => some s | _ => none
  | _ => none

/-- Whitespace set trimmed by the JavaScript `String.prototype.trim`. -/
def isJsWhitespace (c : Char) : Bool :=
  let v := c.val
  v == 0x20 || v == 0x09 || v == 0x0A || v == 0x0D || v == 0x0B || v == 0x0C ||
  v == 0xA0 || v == 0x1680 || (0x2000 ≤ v && v ≤ 0x200A) ||
  v == 0x2028 || v == 0x2029 || v == 0x202F || v == 0x205F ||
  v == 0x3000 || v == 0xFEFF

/-- Model of the JavaScript `trim()`. -/
def jsTrim (s : String) : String :=
  String.mk (((s.data.dropWhile isJsWhitespace).reverse.dropWhile isJsWhitespace).reverse)

/-- Model of `toLowerCase()`; the strings flowing through the monitor are
ASCII, where `Char.toLower` agrees with the JavaScript conversion. -/
def jsToLower (s : String) : String :=
  String.mk (s.data.map Char.toLower)

/-! Character classes and anchored regular expressions used by the monitor. -/

/-- Character class of the identifier guard regex, `[a-z0-9/._:-]` with the
case-insensitive flag. -/
def isIdentLikeChar (c : Char) : Bool :=
  c.isAlpha || c.isDigit || c == '/' || c == '.' || c == '_' || c == ':' || c == '-'

/-- Test of the anchored regex over `[a-z0-9/._:-]` (case-insensitive),
the guard that keeps plain address-like strings undecoded. -/
def matchesIdentLike (s : String) : Bool :=
  s != "" && s.data.all isIdentLikeChar

/-- Character class of the base64-alphabet regex, `[a-z0-9+/=]` with the
case-insensitive flag. -/
def isB64Char (c : Char) : Bool :=
  c.isAlpha || c.isDigit || c == '+' || c == '/' || c == '='

/-- Test of the anchored base64-alphabet regex. -/
def matchesB64 (s : String) : Bool :=
  s != "" && s.data.all isB64Char

/-- Printable-ASCII test, the anchored regex over the range x20 to x7e. -/
def allPrintable (s : String) : Bool :=
  s != "" && s.data.all (fun c => 0x20 ≤ c.val && c.val ≤ 0x7E)

/-- Value of a single base64 digit. -/
def b64Val (c : Char) : Option Nat :=
  if 'A' ≤ c && c ≤ 'Z' then some (c.toNat - 65)
  else if 'a' ≤ c && c ≤ 'z' then some (c.toNat - 97 + 26)
  else if '0' ≤ c && c ≤ '9' then some (c.toNat - 48 + 52)
  else if c == '+' then some 62
  else if c == '/' then some 63
  else none

/-- Bit-stream accumulation turning base64 digit values into bytes, the
semantics of `Buffer.from(s, "base64")` on alphabet-checked input. -/
def b64BytesAux : List Nat → Nat → Nat → List Nat
  | [], _, _ => []
  | v :: vs, acc, bits =>
    let acc2 := acc * 64 + v
    let bits2 := bits + 6
    if bits2 ≥ 8 then
      (acc2 / 2 ^ (bits2 - 8)) % 256 :: b64BytesAux vs (acc2 % 2 ^ (bits2 - 8)) (bits2 - 8)
    else
      b64BytesAux vs acc2 bits2

/-- Base64 decoding to a byte list, the semantics of
`Buffer.from(s, "base64")`: decoding terminates at the first padding
character, and other foreign characters before it contribute no bits. -/
def b64Decode (s : String) : List Nat :=
  b64BytesAux ((s.data.takeWhile (fun c => c ≠ '=')).filterMap b64Val) 0 0

/-- Continuation-byte test for UTF-8. -/
def isUtf8Cont (b : Nat) : Bool := 0x80 ≤ b && b ≤ 0xBF

/-- Unicode replacement character, produced for invalid byte sequences by
the lenient `toString("utf-8")` conversion. -/
def replacementChar : Char := Char.ofNat 0xFFFD

/-- Fuel-driven lenient UTF-8 decoding; each step consumes at least one
byte and one unit of fuel, so fuel equal to the byte count suffices. -/
def utf8DecodeAux : Nat → List Nat → List Char
  | _, [] => []
  | 0, _ :: _ => []
  | fuel + 1, b :: rest =>
    if b < 0x80 then Char.ofNat b :: utf8DecodeAux fuel rest
    else if 0xC2 ≤ b && b ≤ 0xDF then
      match rest with
      | b2 :: rest2 =>
        if isUtf8Cont b2 then
          Char.ofNat ((b - 0xC0) * 64 + (b2 - 0x80)) :: utf8DecodeAux fuel rest2
        else replacementChar :: utf8DecodeAux fuel (b2 :: rest2)
      | [] => [replacementChar]
    else if 0xE0 ≤ b && b ≤ 0xEF then
      match rest with
      | b2 :: b3 :: rest3 =>
        let okSecond :=
          (b == 0xE0 && 0xA0 ≤ b2 && b2 ≤ 0xBF) ||
          (b == 0xED && 0x80 ≤ b2 && b2 ≤ 0x9F) ||
          (b != 0xE0 && b != 0xED && isUtf8Cont b2)
        if okSecond && isUtf8Cont b3 then
          Char.ofNat (((b - 0xE0) * 64 + (b2 - 0x80)) * 64 + (b3 - 0x80))
            :: utf8DecodeAux fuel rest3
        else replacementChar :: utf8DecodeAux fuel (b2 :: b3 :: rest3)
      | _ => [replacementChar]
    else if 0xF0 ≤ b && b ≤ 0xF4 then
      match rest with
      | b2 :: b3 :: b4 :: rest4 =>
        let okSecond :=
          (b == 0xF0 && 0x90 ≤ b2 && b2 ≤ 0xBF) ||
          (b == 0xF4 && 0x80 ≤ b2 && b2 ≤ 0x8F) ||
          (b != 0xF0 && b != 0xF4 && isUtf8Cont b2)
        if okSecond && isUtf8Cont b3 && isUtf8Cont b4 then
          Char.ofNat ((((b - 0xF0) * 64 + (b2 - 0x80)) * 64 + (b3 - 0x80)) * 64 + (b4 - 0x80))
            :: utf8DecodeAux fuel rest4
        else replacementChar :: utf8DecodeAux fuel (b2 :: b3 :: b4 :: rest4)
      | _ => [replacementChar]
    else replacementChar :: utf8DecodeAux fuel rest

/-- Lenient UTF-8 decoding of a byte list, modelling
`Buffer.prototype.toString("utf-8")`: well-formed sequences decode to their
code point, everything else becomes the replacement character. -/
def utf8Decode (bs : List Nat) : List Char :=
  utf8DecodeAux bs.length bs

/-- Model of `decodeMaybeBase64`: trim; keep identifier-like strings as
they are; attempt base64 only on alphabet-valid strings whose length is a
multiple of 4; accept the decoded value only when it trims to a non-empty
printable-ASCII string. -/
def decodeMaybeBase64 (input : String) : String :=
  let trimmed := jsTrim input
  if trimmed == "" then ""
  else if matchesIdentLike trimmed then trimmed
  else if !matchesB64 trimmed || trimmed.length % 4 != 0 then trimmed
  else
    let decoded := jsTrim (String.mk (utf8Decode (b64Decode trimmed)))
    if decoded == "" then trimmed
    else if allPrintable decoded then decoded
    else trimmed

/-- Character class `[a-z0-9]` of the amount-splitting regex. -/
def isLowerAlnum (c : Char) : Bool :=
  ('a' ≤ c && c ≤ 'z') || c.isDigit

/-- Model of the anchored regex match `(\d+)([a-z0-9]+)` with its
backtracking: the digit group takes the longest digit run that still leaves
a non-empty alphanumeric remainder; on an all-digit string it gives one
digit back to the second group. -/
def matchAmountDenom (s : String) : Option (String × String) :=
  let cs := s.data
  let ds := cs.takeWhile Char.isDigit
  let rest := cs.dropWhile Char.isDigit
  if ds.isEmpty then none
  else if rest.isEmpty then
    match ds.getLast? with
    | some c => if ds.length ≥ 2 then some (String.mk ds.dropLast, String.mk [c]) else none
    | none => none
  else if rest.all isLowerAlnum then some (String.mk ds, String.mk rest)
  else none

/-- Character class `[a-z0-9/._-]` of the coin-parsing regex. -/
def coinClassChar (c : Char) : Bool :=
  ('a' ≤ c && c ≤ 'z') || c.isDigit || c == '/' || c == '.' || c == '_' || c == '-'

/-- Fuel-driven repeated leftmost matching of `(\d+)([a-z0-9/._-]+)` over
a character list, with the backtracking of the global regex: when no class
character follows a digit run of length at least two, the last digit
serves as the second group.  Each step consumes at least one character and
one unit of fuel, so fuel equal to the character count suffices. -/
def parseCoinsAux : Nat → List Char → List (String × String)
  | _, [] => []
  | 0, _ :: _ => []
  | fuel + 1, c :: cs2 =>
    if c.isDigit then
      let ds := (c :: cs2).takeWhile Char.isDigit
      let rest := (c :: cs2).dropWhile Char.isDigit
      let dn := rest.takeWhile coinClassChar
      let rest2 := rest.dropWhile coinClassChar
      if dn.isEmpty then
        match ds.getLast? with
        | some lastDigit =>
          if ds.length ≥ 2 then
            (String.mk ds.dropLast, String.mk [lastDigit]) :: parseCoinsAux fuel rest
          else parseCoinsAux fuel cs2
        | none => parseCoinsAux fuel cs2
      else (String.mk ds, String.mk dn) :: parseCoinsAux fuel rest2
    else parseCoinsAux fuel cs2

/-- Model of `parseCoins`: lower-case, then collect every match of the
global coin regex as an amount/denom pair. -/
def parseCoins (raw : String) : List (String × String) :=
  parseCoinsAux (jsToLower raw).data.length (jsToLower raw).data

/-- Transfer candidate extracted from a payload (`TxSendEvent`).  The
source stores the matched JSON object and applies `String(...)` during
normalization; since the type guard fixes every field to a string (the
amount may also be a number, converted by the same `String(...)`), the
candidate is modelled with the resulting strings. -/
structure TxSendEvent where
  sender : String
  recipient : String
  amount : String
  denom : String
  txhash : String
deriving DecidableEq, Repr

/-- Model of the `isTxSendEvent` type guard, returning the candidate. -/
def asTxSendEvent (j : Json) : Option TxSendEvent :=
  match asRecord j with
  | none => none
  | some fields =>
    match lookupField fields "sender", lookupField fields "recipient",
          lookupField fields "amount", lookupField fields "denom",
          lookupField fields "txhash" with
    | some (.str s), some (.str r), some amt, some (.str d), some (.str h) =>
      match amt with
      | .str a => some ⟨s, r, a, d, h⟩
      | .num n => some ⟨s, r, toString n, d, h⟩
      | _ => none
    | _, _, _, _, _ => none

mutual
/-- Model of `walk`: the depth-first pre-order list of every value reached
from a payload (the value itself, then array items, then object values in
field order). -/
def walk : Json → List Json
  | .arr items => Json.arr items :: walkList items
  | .obj fields => Json.obj fields :: walkFields fields
  | j => [j]

def walkList : List Json → List Json
  | [] => []
  | j :: rest => walk j ++ walkList rest

def walkFields : List (String × Json) → List Json
  | [] => []
  | (_, v) :: rest => walk v ++ walkFields rest
end

/-- Extraction strategy (1), the direct recursive scan: every visited value
matching the `isTxSendEvent` shape, in visit order. -/
def extractDirectScan (payload : Json) : List TxSendEvent :=
  (walk payload).filterMap asTxSendEvent

/-- Model of `list[i] || list[0] || ""`: the indexed entry when truthy,
else the first entry when truthy, else the empty string. -/
def pickIndexed (l : List String) (i : Nat) : String :=
  let a := l.getD i ""
  if a != "" then a else l.getD 0 ""

/-- Model of `a || b` on the two optional tx-hash strings. -/
def jsOrStrOpt (a b : Option String) : Option String :=
  match a with
  | some s => if s != "" then some s else b
  | none => b

/-- Truthiness filter on an optional string, turning the empty string into
`none`; used where the source tests `if (x)` on a `string | null`. -/
def truthyStr : Option String → Option String
  | some s => if s != "" then some s else none
  | none => none

/-- Extraction strategy (2), `extractFromCosmosEventStyle`: parallel arrays
under `result.events`, zipped by index with fallback to index 0, each
amount split by the anchored `(\d+)([a-z0-9]+)` regex. -/
def extractFromCosmosEventStyle (payload : Json) : List TxSendEvent :=
  match asRecord payload with
  | none => []
  | some root =>
    let result := (lookupField root "result").bind asRecord
    let events := (recGet result "events").bind asRecord
    let senders := stringArray (recGet events "transfer.sender")
    let recipients := stringArray (recGet events "transfer.recipient")
    let amounts := stringArray (recGet events "transfer.amount")
    let txhashOpt := jsOrStrOpt (firstArrayValue (recGet events "tx.hash"))
      (firstArrayValue (recGet events "tx.hashes"))
    match truthyStr txhashOpt with
    | none => []
    | some txhash =>
      if senders.isEmpty || recipients.isEmpty || amounts.isEmpty then []
      else
        let count := max (max senders.length recipients.length) amounts.length
        (List.range count).filterMap (fun i =>
          let sender := jsTrim (pickIndexed senders i)
          let recipient := jsTrim (pickIndexed recipients i)
          let amount := jsTrim (pickIndexed amounts i)
          if sender == "" || recipient == "" || amount == "" then none
          else match matchAmountDenom (jsToLower amount) with
            | none => none
            | some (num, den) => some ⟨sender, recipient, num, den, txhash⟩)

/-- Model of `extractTxHash`: the direct truthy `txhash` string field, else
the first entry of `result.events` under `tx.hash` or `tx.hashes` when
truthy, else the string at `result.data.value.TxResult.result.hash` (which
the source returns even when empty; callers apply truthiness). -/
def extractTxHash (payload : Json) : Option String :=
  match asRecord payload with
  | none => none
  | some root =>
    let direct := match lookupField root "txhash" with
      | some (.str s) => truthyStr (some s)
      | _ => none
    match direct with
    | some s => some s
    | none =>
      let result := (lookupField root "result").bind asRecord
      let events := (recGet result "events").bind asRecord
      let eventHash := jsOrStrOpt (firstArrayValue (recGet events "tx.hash"))
        (firstArrayValue (recGet events "tx.hashes"))
      match truthyStr eventHash with
      | some s => some s
      | none =>
        let data := (recGet result "data").bind asRecord
        let value := (recGet data "value").bind asRecord
        let txResultContainer := (recGet value "TxResult").bind asRecord
        let txResult := (recGet txResultContainer "result").bind asRecord
        match recGet txResult "hash" with
        | some (.str s) => some s
        | _ => none

/-- Records collected from an optional events array. -/
def recordsOfArray : Option Json → List (List (String × Json))
  | some (.arr items) => items.filterMap asRecord
  | _ => []

/-- Candidates of one tagged `transfer` event: collect base64-decoded
sender/recipient/amount attributes, zip by index with fallback to index 0,
and split each amount string with the global coin regex. -/
def transferEventCandidates (txHash : String) (fields : List (String × Json)) :
    List TxSendEvent :=
  if jsToLower (jsOrEmptyStr (lookupField fields "type")) != "transfer" then []
  else
    let attrs := match lookupField fields "attributes" with
      | some (.arr items) => items
      | _ => []
    let collected := attrs.foldl (fun (acc : List String × List String × List String) attrRaw =>
      match asRecord attrRaw with
      | none => acc
      | some attr =>
        let key := decodeMaybeBase64 (jsStringOrEmpty (lookupField attr "key"))
        let valueRaw := decodeMaybeBase64 (jsStringOrEmpty (lookupField attr "value"))
        if key == "sender" then (acc.1 ++ [valueRaw], acc.2.1, acc.2.2)
        else if key == "recipient" then (acc.1, acc.2.1 ++ [valueRaw], acc.2.2)
        else if key == "amount" then (acc.1, acc.2.1, acc.2.2 ++ [valueRaw])
        else acc) ([], [], [])
    let senders := collected.1
    let recipients := collected.2.1
    let amounts := collected.2.2
    let count := max (max senders.length recipients.length) amounts.length
    (List.range count).flatMap (fun i =>
      let sender := jsTrim (pickIndexed senders i)
      let recipient := jsTrim (pickIndexed recipients i)
      let amountStr := jsToLower (jsTrim (pickIndexed amounts i))
      if sender == "" || recipient == "" || amountStr == "" then []
      else (parseCoins amountStr).map (fun coin =>
        ⟨sender, recipient, coin.1, coin.2, txHash⟩))

/-- Extraction strategy (3), `extractFromTendermintEventArray`: locate the
transaction hash, gather the event records under
`result.data.value.TxResult.result.events` and `result.events`, and emit
the candidates of every `transfer`-typed event. -/
def extractFromTendermintEventArray (payload : Json) : List TxSendEvent :=
  match asRecord payload with
  | none => []
  | some root =>
    match truthyStr (extractTxHash payload) with
    | none => []
    | some txHash =>
      let result := (lookupField root "result").bind asRecord
      let data := (recGet result "data").bind asRecord
      let value := (recGet data "value").bind asRecord
      let txResultContainer := (recGet value "TxResult").bind asRecord
      let txResult := (recGet txResultContainer "result").bind asRecord
      let allEvents := recordsOfArray (recGet txResult "events") ++
        recordsOfArray (recGet result "events")
      if allEvents.isEmpty then []
      else allEvents.flatMap (transferEventCandidates txHash)

/-- Candidates of one coin/fund list attached to a message. -/
def fundsCandidates (sender recipient txHash : String) (items : List Json) :
    List TxSendEvent :=
  items.filterMap (fun coinRaw =>
    match asRecord coinRaw with
    | none => none
    | some coin =>
      let denom := jsToLower (jsTrim (jsOrEmptyStr (lookupField coin "denom")))
      let amount := jsTrim (jsOrEmptyStr (lookupField coin "amount"))
      if denom == "" || amount == "" then none
      else some ⟨sender, recipient, amount, denom, txHash⟩)

/-- Candidates of one visited value in the message-body scan: a
contract-execution message yields one candidate per attached fund, a
bank-send message one per attached coin. -/
def messageBodyCandidates (txHash : String) (j : Json) : List TxSendEvent :=
  match asRecord j with
  | none => []
  | some fields =>
    let msgType := jsOrEmptyStr (lookupField fields "@type")
    let execPart :=
      if msgType == "/cosmwasm.wasm.v1.MsgExecuteContract" then
        match lookupField fields "sender", lookupField fields "contract",
              lookupField fields "funds" with
        | some (.str s), some (.str c), some (.arr funds) => fundsCandidates s c txHash funds
        | _, _, _ => []
      else []
    let bankPart :=
      if msgType == "/cosmos.bank.v1beta1.MsgSend" then
        match lookupField fields "from_address", lookupField fields "to_address",
              lookupField fields "amount" with
        | some (.str f), some (.str t), some (.arr coins) => fundsCandidates f t txHash coins
        | _, _, _ => []
      else []
    execPart ++ bankPart

/-- Extraction strategy (4), `extractFromMessageBodies`: locate the
transaction hash, then scan every reachable value for typed message
bodies. -/
def extractFromMessageBodies (payload : Json) : List TxSendEvent :=
  match truthyStr (extractTxHash payload) with
  | none => []
  | some txHash => (walk payload).flatMap (messageBodyCandidates txHash)

/-- Model of `extractTxSendEvents`, the four-strategy cascade: the first
strategy with a non-empty result wins and the following ones are not
attempted.  The function is total: every payload yields a (possibly empty)
list, so extraction cannot raise. -/
def extractTxSendEvents (payload : Json) : List TxSendEvent :=
  let found := extractDirectScan payload
  if !found.isEmpty then found
  else
    let cosmosStyle := extractFromCosmosEventStyle payload
    if !cosmosStyle.isEmpty then cosmosStyle
    else
      let tendermintEvents := extractFromTendermintEventArray payload
      if !tendermintEvents.isEmpty then tendermintEvents
      else extractFromMessageBodies payload

/-- All-digit test, the anchored regex over the digit class. -/
def parseAllDigits (s : String) : Bool :=
  s != "" && s.data.all Char.isDigit

/-- Value of a digit string, the semantics of `BigInt` on checked input. -/
def digitsToNat (s : String) : Nat :=
  s.data.foldl (fun acc c => acc * 10 + (c.toNat - 48)) 0

/-- Model of `parseAmountToUzig`: an all-digit string parses directly; else
the lower-cased string must end with the (truthy) denom and the remaining
prefix must be all digits. -/
def parseAmountToUzig (amountRaw : String) (denom : String) : Option Nat :=
  if parseAllDigits amountRaw then some (digitsToNat amountRaw)
  else
    let lower := jsToLower amountRaw
    if denom != "" && lower.endsWith denom then
      let numericPart := lower.dropRight denom.length
      if parseAllDigits numericPart then some (digitsToNat numericPart) else none
    else none

/-- Validated transfer; the amount is a `Nat` because it is produced from
digit strings and the source rejects non-positive values. -/
structure NormalizedTransfer where
  sender : String
  recipient : String
  amountUzig : Nat
  denom : String
  txhash : String
deriving DecidableEq, Repr

/-- Model of `normalizeTransfer`: trim every field (lower-casing the
denom), reject any empty field, parse the amount and reject non-positive
results. -/
def normalizeTransfer (event : TxSendEvent) : Option NormalizedTransfer :=
  let sender := jsTrim event.sender
  let recipient := jsTrim event.recipient
  let denom := jsToLower (jsTrim event.denom)
  let txhash := jsTrim event.txhash
  if sender == "" || recipient == "" || denom == "" || txhash == "" then none
  else
    let amountRaw := jsTrim event.amount
    match parseAmountToUzig amountRaw denom with
    | none => none
    | some n => if n == 0 then none else some ⟨sender, recipient, n, denom, txhash⟩

/-- Left zero-padding to a given width, modelling `padStart(n, "0")`. -/
def padStartZeros (s : String) (n : Nat) : String :=
  String.mk (List.replicate (n - s.length) '0') ++ s

/-- Removal of trailing zeros, modelling the replace of the anchored
trailing-zero regex by the empty string. -/
def stripTrailingZeros (s : String) : String :=
  String.mk (s.data.reverse.dropWhile (fun c => c == '0')).reverse

/-- Grouping of a reversed digit list into blocks of three separated by
commas. -/
def groupRevDigits : List Char → List Char
  | a :: b :: c :: d :: rest => a :: b :: c :: ',' :: groupRevDigits (d :: rest)
  | l => l

/-- Model of `addThousandsSeparators`: on the digit strings it receives,
the lookahead regex inserts a comma before every position whose distance
to the end is a positive multiple of three. -/
def addThousandsSeparators (numStr : String) : String :=
  String.mk (groupRevDigits numStr.data.reverse).reverse

/-- Model of `formatZigAmount`: integral quotient with thousands
separators; a non-zero remainder is zero-padded to six digits and its
trailing zeros stripped. -/
def formatZigAmount (zigDecimals : Nat) (amountUzig : Nat) : String :=
  let whole := amountUzig / zigDecimals
  let fraction := amountUzig % zigDecimals
  let wholeStr := addThousandsSeparators (Nat.repr whole)
  if fraction == 0 then wholeStr
  else wholeStr ++ "." ++ stripTrailingZeros (padStartZeros (Nat.repr fraction) 6)

/-! The dedup ledger and the monitor state. -/

/-- Optional enrichment record (`TxContext`); every field is optional. -/
structure TxContext where
  eventType : Option String
  contractAddress : Option String
  action : Option String
  offerAsset : Option String
  askAsset : Option String
  offerAmount : Option String
  returnAmount : Option String
deriving DecidableEq, Repr

/-- Mutable state of the `TransferMonitor` instance: the dedup set and its
insertion order, the enrichment cache, and the sampled-log counter. -/
structure MonitorState where
  seenTxHashes : List String
  txOrder : List String
  txContextCache : List (String × Option TxContext)
  nonEventMessageCount : Nat
deriving DecidableEq, Repr

/-- The freshly constructed monitor state. -/
def emptyMonitorState : MonitorState := ⟨[], [], [], 0⟩

/-- Model of `Set.prototype.add`: appending is a no-op on members. -/
def setInsert (l : List String) (x : String) : List String :=
  if x ∈ l then l else l ++ [x]

/-- Model of `Set.prototype.delete`. -/
def setDelete (l : List String) (x : String) : List String :=
  l.filter (fun y => y ≠ x)

/-- Model of `markSeen`: add the hash to the set, push it on the order
list, and when the order list exceeds the capacity shift off the oldest
entry, removing it from the set when truthy. -/
def markSeen (maxSeenTxHashes : Nat) (s : MonitorState) (txHash : String) : MonitorState :=
  let seen1 := setInsert s.seenTxHashes txHash
  let order1 := s.txOrder ++ [txHash]
  if order1.length > maxSeenTxHashes then
    match order1 with
    | [] => { s with seenTxHashes := seen1, txOrder := [] }
    | oldest :: restOrder =>
      if oldest ≠ "" then
        { s with seenTxHashes := setDelete seen1 oldest, txOrder := restOrder }
      else
        { s with seenTxHashes := seen1, txOrder := restOrder }
  else { s with seenTxHashes := seen1, txOrder := order1 }

/-- Marking a whole sequence of hashes in order. -/
def markSeenAll (maxSeenTxHashes : Nat) (s : MonitorState) (hs : List String) : MonitorState :=
  hs.foldl (markSeen maxSeenTxHashes) s

/-! The context-enrichment client. -/

/-- Outcome of one enrichment HTTP attempt, the environment oracle of the
model: a non-success status, a transport error, or a parsed JSON body. -/
inductive FetchResult where
  | httpError (status : Nat)
  | transportError
  | success (payload : Json)

/-- Model of `Map.prototype.has` on the enrichment cache. -/
def cacheHas (cache : List (String × Option TxContext)) (k : String) : Bool :=
  cache.any (fun p => p.1 == k)

/-- Model of `cache.get(k) || null`: a stored `null` and a missing key both
yield `null`. -/
def cacheGet (cache : List (String × Option TxContext)) (k : String) : Option TxContext :=
  match cache.find? (fun p => p.1 == k) with
  | some p => p.2
  | none => none

/-- Model of `Map.prototype.set`: replace the value under an existing key,
else append. -/
def cacheSet (cache : List (String × Option TxContext)) (k : String)
    (v : Option TxContext) : List (String × Option TxContext) :=
  if cache.any (fun p => p.1 == k) then
    cache.map (fun p => if p.1 == k then (k, v) else p)
  else cache ++ [(k, v)]

/-- Wasm context of one event record: `none` unless the record is typed
`wasm`; otherwise collect its trimmed, truthy attribute pairs and surface
the five well-known keys. -/
def wasmContextOfEvent (fields : List (String × Json)) : Option TxContext :=
  if jsToLower (jsOrEmptyStr (lookupField fields "type")) != "wasm" then none
  else
    let attrs := match lookupField fields "attributes" with
      | some (.arr items) => items
      | _ => []
    let values := attrs.foldl (fun (m : List (String × String)) attrRaw =>
      match asRecord attrRaw with
      | none => m
      | some attr =>
        let key := jsTrim (jsOrEmptyStr (lookupField attr "key"))
        let value := jsTrim (jsOrEmptyStr (lookupField attr "value"))
        if key != "" && value != "" then
          (if m.any (fun p => p.1 == key) then
            m.map (fun p => if p.1 == key then (key, value) else p)
          else m ++ [(key, value)])
        else m) []
    let get := fun k => (values.find? (fun p => p.1 == k)).map (fun p => p.2)
    some
      { eventType := some "wasm"
        contractAddress := get "_contract_address"
        action := get "action"
        offerAsset := get "offer_asset"
        askAsset := get "ask_asset"
        offerAmount := get "offer_amount"
        returnAmount := get "return_amount" }

/-- Model of `extractWasmContextFromEventArray`: the context of the first
`wasm`-typed record of the array, if any. -/
def extractWasmContextFromEventArray (eventsRaw : Option Json) : Option TxContext :=
  match eventsRaw with
  | some (.arr items) => items.findSome? (fun ev => (asRecord ev).bind wasmContextOfEvent)
  | _ => none

/-- Model of `extractWasmContextFromLogs`: the first log record with an
events array yielding a wasm context. -/
def extractWasmContextFromLogs (logs : Option Json) : Option TxContext :=
  match logs with
  | some (.arr items) =>
    items.findSome? (fun logRaw =>
      match asRecord logRaw with
      | none => none
      | some log =>
        match lookupField log "events" with
        | some (.arr evs) => extractWasmContextFromEventArray (some (.arr evs))
        | _ => none)
  | _ => none

/-- Model of `extractTxContextFromLcd`: transaction logs first, then the
top-level events of `tx_response`. -/
def extractTxContextFromLcd (payload : Json) : Option TxContext :=
  match asRecord payload with
  | none => none
  | some root =>
    let txResponse := (lookupField root "tx_response").bind asRecord
    match extractWasmContextFromLogs (recGet txResponse "logs") with
    | some ctx => some ctx
    | none => extractWasmContextFromEventArray (recGet txResponse "events")

/-- Result of one `getTxContext` call: the returned context, the cache
afterwards, the number of HTTP requests issued, and the inter-attempt
delays slept. -/
structure LookupOutcome where
  ctx : Option TxContext
  cache : List (String × Option TxContext)
  requests : Nat
  sleeps : List Nat
deriving Repr

/-- The retry loop of `getTxContext` over the remaining attempt numbers: a
successful response whose body yields a context is cached and returned;
any other outcome (non-success status, transport error, or a body without
wasm context) falls through to the next attempt after the fixed delay. -/
def getTxContextLoop (oracle : Nat → FetchResult)
    (cache : List (String × Option TxContext)) (txHash : String) :
    List Nat → LookupOutcome
  | [] => ⟨none, cache, 0, []⟩
  | attempt :: rest =>
    let retried :=
      let r := getTxContextLoop oracle cache txHash rest
      LookupOutcome.mk r.ctx r.cache (r.requests + 1)
        ((if rest.isEmpty then [] else [1200]) ++ r.sleeps)
    match oracle attempt with
    | .success payload =>
      match extractTxContextFromLcd payload with
      | some context => ⟨some context, cacheSet cache txHash (some context), 1, []⟩
      | none => retried
    | _ => retried

/-- Model of `getTxContext`: answer cache hits (including cached `null`)
with no request; on a miss run up to three attempts.  A lookup that
exhausts its attempts returns `null` and leaves the cache unchanged. -/
def getTxContext (oracle : Nat → FetchResult)
    (cache : List (String × Option TxContext)) (txHash : String) : LookupOutcome :=
  if cacheHas cache txHash then ⟨cacheGet cache txHash, cache, 0, []⟩
  else getTxContextLoop oracle cache txHash [1, 2, 3]

/-! The ingestion coordinator. -/

/-- Alert direction. -/
inductive Direction where
  | Sent
  | Received
deriving DecidableEq, Repr

/-- The alert record handed to the notifier. -/
structure Alert where
  wallet : String
  direction : Direction
  amountZig : String
  amountUzig : String
  denom : String
  txHash : String
  sender : String
  recipient : String
  eventType : String
  contractAddress : String
  action : Option String
  offerAsset : Option String
  askAsset : Option String
  offerAmount : Option String
  returnAmount : Option String
deriving DecidableEq, Repr

/-- Model of `x || d` on an optional string with a string default. -/
def jsOrStr (o : Option String) (d : String) : String :=
  match o with
  | some s => if s != "" then s else d
  | none => d

/-- Model of `x || null` on an optional string. -/
def jsOrNull (o : Option String) : Option String :=
  match o with
  | some s => if s != "" then some s else none
  | none => none

/-- Model of the record built by `sendAlert`: enrichment fields default
when the context is absent or falsy, in particular the event type defaults
to the string wasm and the contract address to the recipient. -/
def sendAlert (transfer : NormalizedTransfer) (wallet : String) (direction : Direction)
    (amountZig : String) (txContext : Option TxContext) : Alert :=
  { wallet := wallet
    direction := direction
    amountZig := amountZig
    amountUzig := Nat.repr transfer.amountUzig
    denom := transfer.denom
    txHash := transfer.txhash
    sender := transfer.sender
    recipient := transfer.recipient
    eventType := jsOrStr (txContext.bind (fun c => c.eventType)) "wasm"
    contractAddress := jsOrStr (txContext.bind (fun c => c.contractAddress)) transfer.recipient
    action := jsOrNull (txContext.bind (fun c => c.action))
    offerAsset := jsOrNull (txContext.bind (fun c => c.offerAsset))
    askAsset := jsOrNull (txContext.bind (fun c => c.askAsset))
    offerAmount := jsOrNull (txContext.bind (fun c => c.offerAmount))
    returnAmount := jsOrNull (txContext.bind (fun c => c.returnAmount)) }

/-- Configuration surface of the coordinator, with the enrichment HTTP
environment as an oracle from transaction hash and attempt number to the
attempt outcome. -/
structure AppConfig where
  monitoredWallets : List String
  minAmountUzig : Nat
  zigDecimals : Nat
  maxSeenTxHashes : Nat
  fetchOracle : String → Nat → FetchResult

/-- Insertion into the per-frame transaction buckets, preserving the map
insertion order. -/
def bucketsInsert (buckets : List (String × List NormalizedTransfer))
    (nt : NormalizedTransfer) : List (String × List NormalizedTransfer) :=
  if buckets.any (fun p => p.1 == nt.txhash) then
    buckets.map (fun p => if p.1 == nt.txhash then (p.1, p.2 ++ [nt]) else p)
  else buckets ++ [(nt.txhash, [nt])]

/-- One step of the bucket-building fold: skip events that fail
normalization or whose hash is already in the dedup set. -/
def bucketsStep (seen : List String) (buckets : List (String × List NormalizedTransfer))
    (event : TxSendEvent) : List (String × List NormalizedTransfer) :=
  match normalizeTransfer event with
  | none => buckets
  | some nt => if nt.txhash ∈ seen then buckets else bucketsInsert buckets nt

/-- Grouping of the extracted events by transaction hash, skipping events
that fail normalization or whose hash is already in the dedup set. -/
def buildBuckets (seen : List String) (events : List TxSendEvent) :
    List (String × List NormalizedTransfer) :=
  events.foldl (bucketsStep seen) []

/-- Alerts emitted for one transfer: watchlist, denomination and threshold
filters in order, then one directional alert per matching side. -/
def transferAlerts (cfg : AppConfig) (txContext : Option TxContext)
    (nt : NormalizedTransfer) : List Alert :=
  let senderMatch := cfg.monitoredWallets.contains nt.sender
  let recipientMatch := cfg.monitoredWallets.contains nt.recipient
  if !senderMatch && !recipientMatch then []
  else if nt.denom != "uzig" then []
  else if nt.amountUzig < cfg.minAmountUzig then []
  else
    let amountZig := formatZigAmount cfg.zigDecimals nt.amountUzig
    (if senderMatch then [sendAlert nt nt.sender Direction.Sent amountZig txContext] else []) ++
    (if recipientMatch then [sendAlert nt nt.recipient Direction.Received amountZig txContext]
     else [])

/-- Processing of one transaction bucket: a single enrichment lookup
shared by the bucket, the per-transfer alerts, then `markSeen` on the hash
regardless of whether any alert fired. -/
def processBucket (cfg : AppConfig) (s : MonitorState) (txHash : String)
    (transfers : List NormalizedTransfer) : List Alert × MonitorState :=
  let lookup := getTxContext (cfg.fetchOracle txHash) s.txContextCache txHash
  let s1 := { s with txContextCache := lookup.cache }
  let alerts := transfers.flatMap (transferAlerts cfg lookup.ctx)
  (alerts, markSeen cfg.maxSeenTxHashes s1 txHash)

/-- Sequential processing of the buckets of one frame. -/
def processBuckets (cfg : AppConfig) :
    MonitorState → List (String × List NormalizedTransfer) → List Alert × MonitorState
  | s, [] => ([], s)
  | s, (txHash, transfers) :: rest =>
    let r1 := processBucket cfg s txHash transfers
    let r2 := processBuckets cfg r1.2 rest
    (r1.1 ++ r2.1, r2.2)

/-- Model of `logNonEventMessage`: the sampled-payload counter grows only
for payloads that are records carrying neither an RPC error record nor a
truthy subscription-ack query string. -/
def logNonEventMessage (payload : Json) (count : Nat) : Nat :=
  match asRecord payload with
  | none => count
  | some obj =>
    match (lookupField obj "error").bind asRecord with
    | some _ => count
    | none =>
      let result := (lookupField obj "result").bind asRecord
      match recGet result "query" with
      | some (.str q) => if q != "" then count else count + 1
      | _ => count + 1

/-- Model of `handleRawMessage` on an already-parsed frame (`none` stands
for a non-JSON frame, which is dropped): extract, bucket by hash, process
each bucket, and return the alerts dispatched together with the state
afterwards. -/
def handleRawMessage (cfg : AppConfig) (s : MonitorState) (parsed : Option Json) :
    List Alert × MonitorState :=
  match parsed with
  | none => ([], s)
  | some payload =>
    let events := extractTxSendEvents payload
    if events.isEmpty then
      ([], { s with nonEventMessageCount := logNonEventMessage payload s.nonEventMessageCount })
    else
      processBuckets cfg s (buildBuckets s.seenTxHashes events)

/-! The streaming connection manager. -/

/-- Model of `calculateBackoffMs`; the jitter argument stands for
`Math.floor(Math.random() * 250)`, a uniform draw from 0 to 249. -/
def calculateBackoffMs (attempt : Nat) (jitter : Nat) : Nat :=
  min 30000 (1000 * 2 ^ attempt) + jitter

/-- The jitter-free floor of the reconnect delay for a given attempt. -/
def backoffFloor (attempt : Nat) : Nat :=
  min 30000 (1000 * 2 ^ attempt)

/-- Subscription state of one connection. -/
structure SubscriptionState where
  subscriptionQueries : List String
  subscriptionIndex : Nat
  subscriptionId : Nat
  subscriptionConfirmed : Bool
deriving DecidableEq, Repr

/-- Model of `subscribeCurrentQuery` on an open socket: bump the request
id and send one JSON-RPC subscribe frame for the current query. -/
def subscribeCurrentQuery (st : SubscriptionState) : SubscriptionState × List Json :=
  let st1 := { st with subscriptionId := st.subscriptionId + 1 }
  let query := st.subscriptionQueries.getD st.subscriptionIndex ""
  let payload := Json.obj
    [("jsonrpc", Json.str "2.0"),
     ("id", Json.num (Int.ofNat st1.subscriptionId)),
     ("method", Json.str "subscribe"),
     ("params", Json.obj [("query", Json.str query)])]
  (st1, [payload])

/-- Model of `handleSubscriptionResponse`: frames that are not records or
whose numeric id differs from the pending request id are ignored; an error
on the pending id advances to the next candidate query and resends when
one remains; a result on the pending id marks the subscription
confirmed. -/
def handleSubscriptionResponse (st : SubscriptionState) (parsed : Option Json) :
    SubscriptionState × List Json :=
  match parsed with
  | none => (st, [])
  | some p =>
    match asRecord p with
    | none => (st, [])
    | some obj =>
      let idMatches := match lookupField obj "id" with
        | some (.num n) => n == Int.ofNat st.subscriptionId
        | _ => false
      if !idMatches then (st, [])
      else
        let errTruthy := match lookupField obj "error" with
          | some e => jsTruthy e
          | none => false
        if errTruthy && st.subscriptionIndex + 1 < st.subscriptionQueries.length then
          subscribeCurrentQuery
            { st with subscriptionIndex := st.subscriptionIndex + 1,
                      subscriptionConfirmed := false }
        else
          let resTruthy := match lookupField obj "result" with
            | some r => jsTruthy r
            | none => false
          if resTruthy && !st.subscriptionConfirmed then
            ({ st with subscriptionConfirmed := true }, [])
          else (st, [])

/-- Outcome of processing inbound frames: the subscription state, the
frames sent back on the socket, and the raw frames delivered to the
registered observer. -/
structure FrameOutcome where
  state : SubscriptionState
  sent : List Json
  delivered : List String

/-- Model of the socket message handler: run the subscription layer on the
parsed frame, then hand the raw frame to the observer.  JSON parsing is an
external parameter of the model. -/
def onSocketMessage (parse : String → Option Json) (st : SubscriptionState)
    (raw : String) : FrameOutcome :=
  let r := handleSubscriptionResponse st (parse raw)
  ⟨r.1, r.2, [raw]⟩

/-- Processing of a whole inbound frame sequence. -/
def processFrames (parse : String → Option Json) (st : SubscriptionState) :
    List String → FrameOutcome
  | [] => ⟨st, [], []⟩
  | raw :: rest =>
    let o1 := onSocketMessage parse st raw
    let o2 := processFrames parse o1.state rest
    ⟨o2.state, o1.sent ++ o2.sent, o1.delivered ++ o2.delivered⟩

/-! Theorems about the embedded program. -/

/-- C10: every raw text frame received on the socket is delivered to the
registered observer exactly once and unmodified, in arrival order, for
every subscription state and every parse outcome — including frames whose
id matches the pending subscribe request (acknowledgments and errors),
which the subscription layer consumes without suppressing them. -/
theorem frames_delivered_exactly_once (parse : String → Option Json)
    (st : SubscriptionState) (frames : List String) :
    (processFrames parse st frames).delivered = frames := by
  induction frames generalizing st with
  | nil => rfl
  | cons raw rest ih => simp [processFrames, onSocketMessage, ih]

/-- C5 counterexample: the uniform jitter draw can be zero, in which case
the computed reconnect delay equals the jitter-free floor rather than
strictly exceeding it, refuting the strict inequality of the claim. -/
theorem backoff_at_floor_with_zero_jitter :
    calculateBackoffMs 0 0 = backoffFloor 0 ∧
    ¬ backoffFloor 0 < calculateBackoffMs 0 0 := by
  constructor
  · rfl
  · decide

/-- C5 (amended): for every attempt the reconnect delay equals
`min(30000, 1000 * 2^attempt)` plus the bounded jitter, the floor is
non-decreasing across consecutive attempts (hence so is the expected
delay, the jitter being identically distributed), and every delay is at
least the jitter-free floor and less than the floor plus the jitter bound
250, strictly above the floor exactly when the jitter is non-zero. -/
theorem calculateBackoffMs_spec (attempt jitter : Nat) (hj : jitter < 250) :
    calculateBackoffMs attempt jitter = min 30000 (1000 * 2 ^ attempt) + jitter ∧
    backoffFloor attempt ≤ calculateBackoffMs attempt jitter ∧
    calculateBackoffMs attempt jitter < backoffFloor attempt + 250 ∧
    (0 < jitter → backoffFloor attempt < calculateBackoffMs attempt jitter) ∧
    calculateBackoffMs attempt jitter ≤ calculateBackoffMs (attempt + 1) jitter := by
  refine ⟨rfl, Nat.le_add_right _ _, Nat.add_lt_add_left hj _,
    fun h => Nat.lt_add_of_pos_right h, ?_⟩
  have h2 : (2 : Nat) ^ attempt ≤ 2 ^ (attempt + 1) :=
    Nat.pow_le_pow_right (by norm_num) (Nat.le_succ _)
  exact Nat.add_le_add_right
    (min_le_min (le_refl _) (Nat.mul_le_mul_left _ h2)) _

/-- Witness for the amended C5 statement at attempt 3 with jitter 7. -/
theorem calculateBackoffMs_spec_witness :
    backoffFloor 3 < calculateBackoffMs 3 7 ∧
    calculateBackoffMs 3 7 ≤ calculateBackoffMs 4 7 := by
  have h := calculateBackoffMs_spec 3 7 (by decide)
  exact ⟨h.2.2.2.1 (by decide), h.2.2.2.2⟩

/-- C6: the extraction cascade is deterministic and total: when the direct
recursive scan yields a non-empty candidate list its result is returned
and the remaining strategies are not consulted, and a payload matching no
strategy yields the empty list.  Totality of `extractTxSendEvents` models
that extraction never throws. -/
theorem extractCascade_deterministic (p : Json) :
    (extractDirectScan p ≠ [] → extractTxSendEvents p = extractDirectScan p) ∧
    (extractDirectScan p = [] → extractFromCosmosEventStyle p = [] →
      extractFromTendermintEventArray p = [] → extractFromMessageBodies p = [] →
      extractTxSendEvents p = []) := by
  constructor
  · intro h
    have h1 : (extractDirectScan p).isEmpty = false := by
      simpa [List.isEmpty_iff] using h
    simp [extractTxSendEvents, h1]
  · intro h1 h2 h3 h4
    simp [extractTxSendEvents, h1, h2, h3, h4]

/-- A payload matched by the direct scan: an object of the
`isTxSendEvent` shape. -/
def directScanSample : Json :=
  Json.obj [("sender", Json.str "s1"), ("recipient", Json.str "r1"),
    ("amount", Json.str "5"), ("denom", Json.str "uzig"), ("txhash", Json.str "h1")]

/-- Witness for C6 at a concrete payload matched by strategy (1). -/
theorem extractCascade_deterministic_witness :
    extractTxSendEvents directScanSample = extractDirectScan directScanSample :=
  (extractCascade_deterministic directScanSample).1 (by decide)

/-- The frame of the C3 scenario exactly as written in the claim, with
`tx.hash` a sibling of `events` inside `result`. -/
def c3Frame : Json :=
  Json.obj [("result", Json.obj
    [("events", Json.obj
      [("transfer.sender", Json.arr [Json.str "A"]),
       ("transfer.recipient", Json.arr [Json.str "B"]),
       ("transfer.amount", Json.arr [Json.str "50000000uzig"])]),
     ("tx.hash", Json.arr [Json.str "H1"])])]

/-- The C3 frame with `tx.hash` inside the `events` map, where
`extractFromCosmosEventStyle` reads it. -/
def c3FrameAmended : Json :=
  Json.obj [("result", Json.obj
    [("events", Json.obj
      [("transfer.sender", Json.arr [Json.str "A"]),
       ("transfer.recipient", Json.arr [Json.str "B"]),
       ("transfer.amount", Json.arr [Json.str "50000000uzig"]),
       ("tx.hash", Json.arr [Json.str "H1"])])])]

/-- Configuration of the C3 scenario: watchlist containing only wallet A,
threshold 40000000 base units, scale 1000000, default dedup capacity, and
an enrichment endpoint that is unreachable. -/
def c3Config : AppConfig :=
  { monitoredWallets := ["A"]
    minAmountUzig := 40000000
    zigDecimals := 1000000
    maxSeenTxHashes := 10000
    fetchOracle := fun _ _ => FetchResult.transportError }

/-- C3 counterexample: on the frame exactly as stated by the claim, the
transaction hash sits beside the `events` map rather than inside it, so
every extraction strategy returns the empty list and the frame produces
zero alerts instead of the claimed single `Sent` alert. -/
theorem cosmosScenario_literal_frame_no_alert :
    extractTxSendEvents c3Frame = [] ∧
    (handleRawMessage c3Config emptyMonitorState (some c3Frame)).1 = [] := by
  constructor
  · decide
  · decide

/-- C3 (amended): on the scenario frame with `tx.hash` inside the
`result.events` map, processing with watchlist containing A and threshold
40000000 produces exactly one alert, with direction `Sent`, for wallet A,
with display amount 50. -/
theorem cosmosScenario_single_sent_alert :
    (handleRawMessage c3Config emptyMonitorState (some c3FrameAmended)).1 =
      [{ wallet := "A", direction := Direction.Sent, amountZig := "50",
         amountUzig := "50000000", denom := "uzig", txHash := "H1",
         sender := "A", recipient := "B", eventType := "wasm",
         contractAddress := "B", action := none, offerAsset := none,
         askAsset := none, offerAmount := none, returnAmount := none }] := by
  decide

/-- Reading an association list splits on its head. -/
theorem cacheGet_cons (p : String × Option TxContext)
    (rest : List (String × Option TxContext)) (k : String) :
    cacheGet (p :: rest) k = if (p.1 == k) = true then p.2 else cacheGet rest k := by
  unfold cacheGet
  cases hpk : (p.1 == k) with
  | true => rw [List.find?_cons, hpk]; simp
  | false => rw [List.find?_cons, hpk]; simp

/-- Setting a key makes `cacheHas` true. -/
theorem cacheHas_cacheSet_self (c : List (String × Option TxContext)) (k : String)
    (v : Option TxContext) : cacheHas (cacheSet c k v) k = true := by
  unfold cacheSet
  cases hany : c.any (fun p => p.1 == k) with
  | true =>
    rw [if_pos rfl]
    unfold cacheHas
    obtain ⟨p, hp, hpk⟩ := List.any_eq_true.mp hany
    exact List.any_eq_true.mpr ⟨(k, v), List.mem_map.mpr ⟨p, hp, by rw [if_pos hpk]⟩, by simp⟩
  | false =>
    rw [if_neg (by simp)]
    simp [cacheHas]

/-- Appending a fresh key at the end makes it readable. -/
theorem cacheGet_append_self (k : String) (v : Option TxContext) :
    ∀ c : List (String × Option TxContext), c.any (fun q => q.1 == k) = false →
      cacheGet (c ++ [(k, v)]) k = v
  | [], _ => by
    rw [List.nil_append, cacheGet_cons]
    simp
  | p :: rest, h => by
    have h2 : ((p.1 == k) = false) ∧ rest.any (fun q => q.1 == k) = false := by
      simpa [List.any_cons] using h
    rw [List.cons_append, cacheGet_cons, if_neg (by simp [h2.1])]
    exact cacheGet_append_self k v rest h2.2

/-- Replacing the value under a present key makes the new value
readable. -/
theorem cacheGet_map_set_self (k : String) (v : Option TxContext) :
    ∀ c : List (String × Option TxContext), c.any (fun q => q.1 == k) = true →
      cacheGet (c.map (fun q => if q.1 == k then (k, v) else q)) k = v
  | [], h => by simp at h
  | p :: rest, h => by
    by_cases hp : (p.1 == k) = true
    · rw [List.map_cons, if_pos hp, cacheGet_cons]
      simp
    · have h2 : rest.any (fun q => q.1 == k) = true := by
        simpa [List.any_cons, hp] using h
      rw [List.map_cons, if_neg hp, cacheGet_cons, if_neg hp]
      exact cacheGet_map_set_self k v rest h2

/-- Reading back a key just set yields the stored value. -/
theorem cacheGet_cacheSet_self (c : List (String × Option TxContext)) (k : String)
    (v : Option TxContext) : cacheGet (cacheSet c k v) k = v := by
  unfold cacheSet
  cases hany : c.any (fun p => p.1 == k) with
  | true =>
    rw [if_pos rfl]
    exact cacheGet_map_set_self k v c hany
  | false =>
    rw [if_neg (by simp)]
    exact cacheGet_append_self k v c hany

/-- A lookup whose loop completes with a context leaves that context in
the cache under its hash. -/
theorem getTxContextLoop_cache_of_some (oracle : Nat → FetchResult)
    (cache : List (String × Option TxContext)) (txHash : String)
    (attempts : List Nat) (ctx : TxContext)
    (hc : (getTxContextLoop oracle cache txHash attempts).ctx = some ctx) :
    (getTxContextLoop oracle cache txHash attempts).cache =
      cacheSet cache txHash (some ctx) := by
  induction attempts with
  | nil => simp [getTxContextLoop] at hc
  | cons a rest ih =>
    simp only [getTxContextLoop] at hc ⊢
    cases horacle : oracle a with
    | success payload =>
      cases hext : extractTxContextFromLcd payload with
      | some context =>
        simp only [horacle, hext] at hc ⊢
        obtain rfl : context = ctx := by simpa using hc
        rfl
      | none =>
        simp only [horacle, hext] at hc ⊢
        exact ih hc
    | httpError status =>
      simp only [horacle] at hc ⊢
      exact ih hc
    | transportError =>
      simp only [horacle] at hc ⊢
      exact ih hc

/-- C2 counterexample: with an enrichment endpoint answering HTTP 500, a
lookup completes with the outcome `null` but caches nothing, so looking
the same hash up again issues three further HTTP requests, refuting the
claim that a completed negative lookup is answered from the cache without
new requests. -/
theorem txContext_negative_outcome_not_memoized :
    (getTxContext (fun _ => FetchResult.httpError 500) [] "H1").ctx = none ∧
    (getTxContext (fun _ => FetchResult.httpError 500) [] "H1").cache = [] ∧
    (getTxContext (fun _ => FetchResult.httpError 500) [] "H1").requests = 3 ∧
    (getTxContext (fun _ => FetchResult.httpError 500)
      (getTxContext (fun _ => FetchResult.httpError 500) [] "H1").cache "H1").requests = 3 := by
  exact ⟨rfl, rfl, rfl, rfl⟩

/-- C2 (amended): the context-enrichment lookup is memoized for the
process lifetime for completed lookups that produced a `TxContext`: once
`lookup(txHash)` has returned a context, any subsequent lookup of the same
hash returns that cached context and issues zero HTTP requests (a negative
outcome is returned as `null` without being cached). -/
theorem txContext_success_memoized (oracle oracle2 : Nat → FetchResult)
    (cache : List (String × Option TxContext)) (txHash : String) (ctx : TxContext)
    (hc : (getTxContext oracle cache txHash).ctx = some ctx) :
    (getTxContext oracle2 (getTxContext oracle cache txHash).cache txHash).ctx = some ctx ∧
    (getTxContext oracle2 (getTxContext oracle cache txHash).cache txHash).requests = 0 := by
  unfold getTxContext at hc ⊢
  by_cases hhit : cacheHas cache txHash
  · simp only [hhit, if_true] at hc ⊢
    simp [hhit, hc]
  · simp only [hhit, Bool.false_eq_true, if_false] at hc ⊢
    have hcache := getTxContextLoop_cache_of_some oracle cache txHash [1, 2, 3] ctx hc
    rw [hcache]
    simp [cacheHas_cacheSet_self, cacheGet_cacheSet_self]

/-- An LCD body containing a wasm event with no attributes. -/
def wasmLcdPayload : Json :=
  Json.obj [("tx_response", Json.obj
    [("events", Json.arr [Json.obj [("type", Json.str "wasm"), ("attributes", Json.arr [])]])])]

/-- Witness for the amended C2 statement: after a successful lookup, a
repeat lookup against an unreachable endpoint still answers from the cache
with zero requests. -/
theorem txContext_success_memoized_witness :
    (getTxContext (fun _ => FetchResult.transportError)
      (getTxContext (fun _ => FetchResult.success wasmLcdPayload) [] "H2").cache "H2").ctx =
        some ⟨some "wasm", none, none, none, none, none, none⟩ ∧
    (getTxContext (fun _ => FetchResult.transportError)
      (getTxContext (fun _ => FetchResult.success wasmLcdPayload) [] "H2").cache "H2").requests
        = 0 :=
  txContext_success_memoized (fun _ => FetchResult.success wasmLcdPayload)
    (fun _ => FetchResult.transportError) [] "H2"
    ⟨some "wasm", none, none, none, none, none, none⟩ (by decide)

/-- C9: when the enrichment endpoint answers a non-success HTTP status on
all three attempts, the lookup resolves to `null` after exactly three
requests with the fixed 1200 ms delay slept between consecutive attempts;
and an alert built without a context still carries the defaulted event
type wasm — the alert predicate never consults the enrichment outcome, so
a qualifying transfer is alerted rather than suppressed. -/
theorem enrichmentFailure_alert_defaulted (oracle : Nat → FetchResult)
    (cache : List (String × Option TxContext)) (txHash : String)
    (hmiss : cacheHas cache txHash = false)
    (hfail : ∀ a ∈ [1, 2, 3], ∃ status, oracle a = FetchResult.httpError status) :
    (getTxContext oracle cache txHash).ctx = none ∧
    (getTxContext oracle cache txHash).cache = cache ∧
    (getTxContext oracle cache txHash).requests = 3 ∧
    (getTxContext oracle cache txHash).sleeps = [1200, 1200] ∧
    (∀ (nt : NormalizedTransfer) (wallet : String) (d : Direction) (amountZig : String),
      (sendAlert nt wallet d amountZig none).eventType = "wasm") ∧
    (∀ (cfg : AppConfig) (nt : NormalizedTransfer) (ctx1 ctx2 : Option TxContext),
      (transferAlerts cfg ctx1 nt).length = (transferAlerts cfg ctx2 nt).length) := by
  obtain ⟨st1, h1⟩ := hfail 1 (by simp)
  obtain ⟨st2, h2⟩ := hfail 2 (by simp)
  obtain ⟨st3, h3⟩ := hfail 3 (by simp)
  refine ⟨?_, ?_, ?_, ?_, ?_, ?_⟩
  · simp [getTxContext, hmiss, getTxContextLoop, h1, h2, h3]
  · simp [getTxContext, hmiss, getTxContextLoop, h1, h2, h3]
  · simp [getTxContext, hmiss, getTxContextLoop, h1, h2, h3]
  · simp [getTxContext, hmiss, getTxContextLoop, h1, h2, h3]
  · intro nt wallet d amountZig
    rfl
  · intro cfg nt ctx1 ctx2
    unfold transferAlerts
    cases hsm : cfg.monitoredWallets.contains nt.sender <;>
    cases hrm : cfg.monitoredWallets.contains nt.recipient <;>
    by_cases hd : (nt.denom != "uzig") = true <;>
    by_cases ha : nt.amountUzig < cfg.minAmountUzig <;>
    simp [hsm, hrm, hd, ha]

/-- Witness for C9 with a concrete always-500 endpoint and a concrete
transfer. -/
theorem enrichmentFailure_alert_defaulted_witness :
    (getTxContext (fun _ => FetchResult.httpError 500) [] "W9").ctx = none ∧
    (getTxContext (fun _ => FetchResult.httpError 500) [] "W9").requests = 3 ∧
    (getTxContext (fun _ => FetchResult.httpError 500) [] "W9").sleeps = [1200, 1200] ∧
    (sendAlert ⟨"a", "b", 50000000, "uzig", "W9"⟩ "a" Direction.Sent "50" none).eventType
      = "wasm" := by
  have h := enrichmentFailure_alert_defaulted (fun _ => FetchResult.httpError 500) [] "W9"
    (by decide) (fun a _ => ⟨500, rfl⟩)
  exact ⟨h.1, h.2.2.1, h.2.2.2.1, h.2.2.2.2.1 _ _ _ _⟩

/-- C4 counterexample: the string QUJD is valid base64 alphabet of length
divisible by four and decodes to the printable ASCII string ABC, yet
`decodeMaybeBase64` returns it unchanged because the identifier-pattern
guard fires first — refuting the claim that every such string is returned
decoded. -/
theorem decodeMaybeBase64_printable_not_decoded :
    matchesB64 "QUJD" = true ∧
    "QUJD".length % 4 = 0 ∧
    jsTrim (String.mk (utf8Decode (b64Decode "QUJD"))) = "ABC" ∧
    allPrintable "ABC" = true ∧
    decodeMaybeBase64 "QUJD" = "QUJD" := by
  refine ⟨rfl, rfl, rfl, rfl, rfl⟩

/-- C4 (amended): for every trimmed non-empty input string, a string
matching the identifier pattern over letters, digits and `/._:-`
(plain lowercase addresses in particular) is returned unchanged and never
decoded; a string outside the base64 alphabet or of length not a multiple
of four is returned unchanged (decoding is attempted only otherwise); and
a string not matching the identifier pattern that is valid base64 alphabet
with length a multiple of four is returned decoded when its decoding trims
to printable ASCII, unchanged otherwise. -/
theorem decodeMaybeBase64_spec (s : String) (hs : jsTrim s = s) (hne : s ≠ "") :
    (matchesIdentLike s = true → decodeMaybeBase64 s = s) ∧
    ((matchesB64 s = false ∨ s.length % 4 ≠ 0) → decodeMaybeBase64 s = s) ∧
    (matchesIdentLike s = false → matchesB64 s = true → s.length % 4 = 0 →
      (allPrintable (jsTrim (String.mk (utf8Decode (b64Decode s)))) = true →
        decodeMaybeBase64 s = jsTrim (String.mk (utf8Decode (b64Decode s)))) ∧
      (allPrintable (jsTrim (String.mk (utf8Decode (b64Decode s)))) = false →
        decodeMaybeBase64 s = s)) := by
  have hne2 : (s == "") = false := by simpa using hne
  refine ⟨?_, ?_, ?_⟩
  · intro hident
    simp [decodeMaybeBase64, hs, hne2, hident]
  · intro hbad
    by_cases hident : matchesIdentLike s = true
    · simp [decodeMaybeBase64, hs, hne2, hident]
    · have hcond : (!matchesB64 s || s.length % 4 != 0) = true := by
        rcases hbad with hb | hb
        · simp [hb]
        · simp [hb]
      simp [decodeMaybeBase64, hs, hne2, hident, hcond]
  · intro hident hb64 hlen
    have hcond : (!matchesB64 s || s.length % 4 != 0) = false := by
      simp [hb64, hlen]
    constructor
    · intro hprint
      have hdec : (jsTrim (String.mk (utf8Decode (b64Decode s))) == "") = false := by
        have : jsTrim (String.mk (utf8Decode (b64Decode s))) ≠ "" := by
          intro hcontra
          rw [hcontra] at hprint
          simp [allPrintable] at hprint
        simpa using this
      simp [decodeMaybeBase64, hs, hne2, hident, hcond, hdec, hprint]
    · intro hprint
      by_cases hdec : (jsTrim (String.mk (utf8Decode (b64Decode s))) == "") = true
      · simp [decodeMaybeBase64, hs, hne2, hident, hcond, hdec]
      · simp [decodeMaybeBase64, hs, hne2, hident, hcond, hdec, hprint]

/-- Witness for the amended C4 statement: a non-identifier base64 string
with trailing padding decodes to its printable payload, and decoding stops
at the first padding character, so characters after it are ignored. -/
theorem decodeMaybeBase64_spec_witness :
    decodeMaybeBase64 "YWJjZA==" = "abcd" ∧ decodeMaybeBase64 "QQ==QUJD" = "A" := by
  constructor
  · have h := ((decodeMaybeBase64_spec "YWJjZA==" rfl (by decide)).2.2
      (by decide) (by decide) (by decide)).1 (by decide)
    rw [h]
    rfl
  · have h := ((decodeMaybeBase64_spec "QQ==QUJD" rfl (by decide)).2.2
      (by decide) (by decide) (by decide)).1 (by decide)
    rw [h]
    rfl

/-- Decimal digit characters are digits. -/
theorem digitChar_isDigit (m : Nat) (h : m < 10) : (Nat.digitChar m).isDigit = true := by
  interval_cases m <;> decide

/-- Characters produced by the base-10 digit conversion loop are digits,
given the accumulator holds only digits. -/
theorem toDigitsCore_digits (fuel : Nat) :
    ∀ (n : Nat) (ds : List Char), (∀ c ∈ ds, c.isDigit = true) →
      ∀ c ∈ Nat.toDigitsCore 10 fuel n ds, c.isDigit = true := by
  induction fuel with
  | zero =>
    intro n ds hds c hc
    exact hds c hc
  | succ fuel ih =>
    intro n ds hds c hc
    have hd : (Nat.digitChar (n % 10)).isDigit = true :=
      digitChar_isDigit _ (Nat.mod_lt _ (by norm_num))
    have hcons : ∀ x ∈ Nat.digitChar (n % 10) :: ds, x.isDigit = true := by
      intro x hx
      rcases List.mem_cons.mp hx with rfl | hx
      · exact hd
      · exact hds x hx
    simp only [Nat.toDigitsCore] at hc
    split at hc
    · exact hcons c hc
    · exact ih _ _ hcons c hc

/-- Every character of the decimal representation of a `Nat` is a
digit. -/
theorem repr_chars_digits (n : Nat) : ∀ c ∈ (Nat.repr n).data, c.isDigit = true := by
  intro c hc
  exact toDigitsCore_digits (n + 1) n [] (by simp) c hc

/-- Characters of the grouped digit list come from the input or are
commas. -/
theorem groupRevDigits_mem : ∀ (l : List Char), ∀ c ∈ groupRevDigits l, c ∈ l ∨ c = ','
  | [] => fun _ hc => Or.inl hc
  | [a] => fun _ hc => Or.inl hc
  | [a, b] => fun _ hc => Or.inl hc
  | [a, b, c2] => fun _ hc => Or.inl hc
  | a :: b :: c2 :: d :: rest => by
    intro c hc
    have heq : groupRevDigits (a :: b :: c2 :: d :: rest) =
        a :: b :: c2 :: ',' :: groupRevDigits (d :: rest) := rfl
    rw [heq] at hc
    simp only [List.mem_cons] at hc
    rcases hc with rfl | rfl | rfl | rfl | hc
    · exact Or.inl (by simp)
    · exact Or.inl (by simp)
    · exact Or.inl (by simp)
    · exact Or.inr rfl
    · rcases groupRevDigits_mem (d :: rest) c hc with h2 | h2
      · rcases List.mem_cons.mp h2 with rfl | h3
        · exact Or.inl (by simp)
        · exact Or.inl (by simp [h3])
      · exact Or.inr h2

/-- Characters of the thousands-separated string come from the input or
are commas. -/
theorem addThousandsSeparators_mem (s : String) (c : Char)
    (h : c ∈ (addThousandsSeparators s).data) : c ∈ s.data ∨ c = ',' := by
  have h2 : c ∈ (groupRevDigits s.data.reverse).reverse := h
  rw [List.mem_reverse] at h2
  rcases groupRevDigits_mem _ c h2 with h3 | h3
  · exact Or.inl (List.mem_reverse.mp h3)
  · exact Or.inr h3

/-- C8: formatting 1234567890 base units with scale 1000000 yields the
string 1,234.56789 — thousands separators in the integral part and the
trailing zero of the fraction stripped; and for every amount that is an
exact multiple of the scale, the output is exactly the thousands-separated
quotient, containing no decimal point at all. -/
theorem formatZigAmount_spec :
    formatZigAmount 1000000 1234567890 = "1,234.56789" ∧
    (∀ scale amount : Nat, 0 < scale → amount % scale = 0 →
      formatZigAmount scale amount = addThousandsSeparators (Nat.repr (amount / scale)) ∧
      '.' ∉ (formatZigAmount scale amount).data) := by
  constructor
  · rfl
  · intro scale amount hpos hdvd
    have heq : formatZigAmount scale amount =
        addThousandsSeparators (Nat.repr (amount / scale)) := by
      simp [formatZigAmount, hdvd]
    refine ⟨heq, ?_⟩
    intro hdot
    rw [heq] at hdot
    rcases addThousandsSeparators_mem _ _ hdot with h3 | h3
    · have := repr_chars_digits (amount / scale) _ h3
      simp at this
    · exact absurd h3 (by decide)

/-- Witness for C8 at the integral amount 2000000 with scale 1000000. -/
theorem formatZigAmount_spec_witness :
    formatZigAmount 1000000 2000000 = "2" ∧
    '.' ∉ (formatZigAmount 1000000 2000000).data := by
  have h := formatZigAmount_spec.2 1000000 2000000 (by decide) (by decide)
  exact ⟨h.1.trans rfl, h.2⟩

/-- Marking a fresh non-empty hash on a mirror state (set equal to order
list) keeps the mirror: the new hash is appended and, when over capacity,
the single oldest entry is evicted from both. -/
theorem markSeen_mirror (cap : Nat) (t : List String)
    (cache : List (String × Option TxContext)) (cnt : Nat) (x : String)
    (hnd : t.Nodup) (hx : x ∉ t) (hne : "" ∉ t) (hxne : x ≠ "") :
    markSeen cap ⟨t, t, cache, cnt⟩ x =
      ⟨if t.length + 1 > cap then (t ++ [x]).tail else t ++ [x],
       if t.length + 1 > cap then (t ++ [x]).tail else t ++ [x], cache, cnt⟩ := by
  have hins : setInsert t x = t ++ [x] := by simp [setInsert, hx]
  unfold markSeen
  simp only [hins, List.length_append, List.length_singleton]
  by_cases hcap : t.length + 1 > cap
  · rw [if_pos hcap, if_pos hcap]
    cases t with
    | nil =>
      simp only [List.nil_append]
      rw [if_pos hxne]
      simp [setDelete, hxne]
    | cons h0 t2 =>
      have hh0 : h0 ≠ "" := fun h => hne (h ▸ List.mem_cons_self _ _)
      have hnotin : h0 ∉ t2 := (List.nodup_cons.mp hnd).1
      have hx0 : x ≠ h0 := fun hxx => hx (hxx ▸ List.mem_cons_self _ _)
      simp only [List.cons_append]
      rw [if_pos hh0]
      have hfilter : setDelete (h0 :: (t2 ++ [x])) h0 = t2 ++ [x] := by
        unfold setDelete
        rw [List.filter_cons, if_neg (by simp)]
        apply List.filter_eq_self.mpr
        intro y hy
        rcases List.mem_append.mp hy with hy2 | hy2
        · simp only [decide_eq_true_eq]
          intro hcontra
          exact hnotin (hcontra ▸ hy2)
        · simp only [List.mem_singleton] at hy2
          subst hy2
          simpa using hx0
      rw [hfilter]
      simp
  · rw [if_neg hcap, if_neg hcap]

/-- State of the dedup ledger after marking a distinct, non-empty hash
sequence from the fresh state: the order list is the suffix of the last
`min(length, cap)` hashes and the set mirrors it exactly. -/
theorem markSeenAll_state (cap : Nat) (hs : List String)
    (hnd : hs.Nodup) (hne : ∀ h ∈ hs, h ≠ "") :
    markSeenAll cap emptyMonitorState hs =
      ⟨hs.drop (hs.length - cap), hs.drop (hs.length - cap), [], 0⟩ := by
  induction hs using List.reverseRecOn with
  | nil => simp [markSeenAll, emptyMonitorState]
  | append_singleton l x ih =>
    have hnd2 : l.Nodup := hnd.of_append_left
    have hx : x ∉ l := by
      intro hmem
      exact (List.disjoint_of_nodup_append hnd) hmem (by simp)
    have hne2 : ∀ h ∈ l, h ≠ "" := fun h hh => hne h (List.mem_append.mpr (Or.inl hh))
    have hxne : x ≠ "" := hne x (by simp)
    have hfold : markSeenAll cap emptyMonitorState (l ++ [x]) =
        markSeen cap (markSeenAll cap emptyMonitorState l) x := by
      unfold markSeenAll
      rw [List.foldl_append]
      rfl
    rw [hfold, ih hnd2 hne2]
    set t := l.drop (l.length - cap) with ht
    have htnd : t.Nodup := hnd2.sublist (List.drop_sublist _ _)
    have htx : x ∉ t := fun hmem => hx (List.drop_subset _ _ hmem)
    have htne : "" ∉ t := fun hmem => (hne2 "" (List.drop_subset _ _ hmem)) rfl
    rw [markSeen_mirror cap t [] 0 x htnd htx htne hxne]
    have hwindow :
        (if t.length + 1 > cap then (t ++ [x]).tail else t ++ [x]) =
          (l ++ [x]).drop ((l ++ [x]).length - cap) := by
      have hlen : t.length = l.length - (l.length - cap) := by simp [ht]
      by_cases hge : cap ≤ l.length
      · have htlen : t.length = cap := by omega
        rw [if_pos (by omega)]
        by_cases hcap0 : cap = 0
        · subst hcap0
          have ht0 : t = [] := List.length_eq_zero.mp htlen
          rw [ht0]
          have hr : (l ++ [x]).drop ((l ++ [x]).length - 0) = [] := by
            apply List.drop_eq_nil_of_le
            omega
          rw [hr]
          rfl
        · have htnil : t ≠ [] := by
            intro hnil
            rw [hnil] at htlen
            simp at htlen
            omega
          obtain ⟨h0, t2, hcons⟩ := List.exists_cons_of_ne_nil htnil
          rw [hcons]
          simp only [List.cons_append, List.tail_cons]
          have htail : t2 = l.drop (l.length - cap + 1) := by
            have : t.tail = l.drop (l.length - cap + 1) := by
              rw [ht, List.tail_drop]
            rw [hcons] at this
            simpa using this
          rw [htail]
          have harith : (l ++ [x]).length - cap = l.length - cap + 1 := by
            simp only [List.length_append, List.length_singleton]
            omega
          rw [harith, List.drop_append_of_le_length (by omega)]
      · have h0 : l.length - cap = 0 := by omega
        have htl : t = l := by rw [ht, h0, List.drop_zero]
        rw [if_neg (by omega), htl]
        have h1 : (l ++ [x]).length - cap = 0 := by
          simp only [List.length_append, List.length_singleton]
          omega
        rw [h1, List.drop_zero]
    rw [hwindow]

/-- C1: for every capacity, marking a sequence of `cap + k` distinct
non-empty transaction hashes leaves the ledger holding exactly the last
`cap` of them in order, the `k` oldest are no longer members, and after
every prefix the set membership coincides with presence in the order
list, whose length never exceeds the capacity — strict FIFO eviction of
the oldest entry. -/
theorem dedupLedger_strict_fifo (cap k : Nat) (hs : List String)
    (hnd : hs.Nodup) (hlen : hs.length = cap + k) (hk : 1 ≤ k)
    (hne : ∀ h ∈ hs, h ≠ "") :
    (markSeenAll cap emptyMonitorState hs).txOrder = hs.drop k ∧
    (∀ x, x ∈ (markSeenAll cap emptyMonitorState hs).seenTxHashes ↔ x ∈ hs.drop k) ∧
    (∀ x ∈ hs.take k, x ∉ (markSeenAll cap emptyMonitorState hs).seenTxHashes) ∧
    (∀ i, i ≤ hs.length →
      ((∀ x, x ∈ (markSeenAll cap emptyMonitorState (hs.take i)).seenTxHashes ↔
          x ∈ (markSeenAll cap emptyMonitorState (hs.take i)).txOrder) ∧
       (markSeenAll cap emptyMonitorState (hs.take i)).txOrder.length ≤ cap)) := by
  have hdrop : hs.length - cap = k := by omega
  have hstate := markSeenAll_state cap hs hnd hne
  rw [hdrop] at hstate
  refine ⟨?_, ?_, ?_, ?_⟩
  · rw [hstate]
  · intro x
    rw [hstate]
  · intro x hxtake hxseen
    rw [hstate] at hxseen
    exact (List.disjoint_take_drop hnd (le_refl k)) hxtake hxseen
  · intro i hi
    have hndi : (hs.take i).Nodup := hnd.sublist (List.take_sublist _ _)
    have hnei : ∀ h ∈ hs.take i, h ≠ "" :=
      fun h hh => hne h (List.take_subset _ _ hh)
    have hstatei := markSeenAll_state cap (hs.take i) hndi hnei
    constructor
    · intro x
      rw [hstatei]
    · rw [hstatei]
      simp only [List.length_drop, List.length_take]
      omega

/-- Witness for C1 at capacity 2 with the three distinct hashes a, b, c:
afterwards the ledger holds exactly b and c and the evicted oldest hash a
is no longer a member. -/
theorem dedupLedger_strict_fifo_witness :
    (markSeenAll 2 emptyMonitorState ["a", "b", "c"]).txOrder = ["b", "c"] ∧
    "b" ∈ (markSeenAll 2 emptyMonitorState ["a", "b", "c"]).seenTxHashes ∧
    "a" ∉ (markSeenAll 2 emptyMonitorState ["a", "b", "c"]).seenTxHashes := by
  have h := dedupLedger_strict_fifo 2 1 ["a", "b", "c"] (by decide) (by decide)
    (by decide) (by intro x hx; fin_cases hx <;> decide)
  exact ⟨h.1, (h.2.1 "b").mpr (by decide), h.2.2.1 "a" (by decide)⟩

/-- Inserting into the buckets never yields the empty map. -/
theorem bucketsInsert_ne_nil (buckets : List (String × List NormalizedTransfer))
    (nt : NormalizedTransfer) : bucketsInsert buckets nt ≠ [] := by
  unfold bucketsInsert
  split
  · rename_i hany
    intro hnil
    rw [List.map_eq_nil_iff] at hnil
    subst hnil
    simp at hany
  · intro hnil
    simp at hnil

/-- The bucket fold yields the empty map exactly when the accumulator was
empty and every normalizable event is already in the dedup set. -/
theorem foldl_bucketsStep_nil_iff (seen : List String) :
    ∀ (events : List TxSendEvent) (acc : List (String × List NormalizedTransfer)),
      events.foldl (bucketsStep seen) acc = [] ↔
        (acc = [] ∧ ∀ e ∈ events, ∀ nt, normalizeTransfer e = some nt →
          nt.txhash ∈ seen) := by
  intro events
  induction events with
  | nil => intro acc; simp
  | cons e rest ih =>
    intro acc
    rw [List.foldl_cons, ih]
    constructor
    · rintro ⟨hstep, hrest⟩
      have hacc : acc = [] ∧ (∀ nt, normalizeTransfer e = some nt → nt.txhash ∈ seen) := by
        cases hnorm : normalizeTransfer e with
        | none =>
          simp only [bucketsStep, hnorm] at hstep
          exact ⟨hstep, fun nt h => by simp [hnorm] at h⟩
        | some nt =>
          simp only [bucketsStep, hnorm] at hstep
          by_cases hmem : nt.txhash ∈ seen
          · rw [if_pos hmem] at hstep
            refine ⟨hstep, fun nt2 h2 => ?_⟩
            injection h2 with h3
            rwa [← h3]
          · rw [if_neg hmem] at hstep
            exact absurd hstep (bucketsInsert_ne_nil _ _)
      refine ⟨hacc.1, ?_⟩
      intro e2 he2 nt hnt
      rcases List.mem_cons.mp he2 with rfl | he2
      · exact hacc.2 nt hnt
      · exact hrest e2 he2 nt hnt
    · rintro ⟨hacc, hall⟩
      subst hacc
      have hstep : bucketsStep seen [] e = [] := by
        cases hnorm : normalizeTransfer e with
        | none => simp only [bucketsStep, hnorm]
        | some nt =>
          simp only [bucketsStep, hnorm]
          rw [if_pos (hall e (by simp) nt hnorm)]
      rw [hstep]
      exact ⟨rfl, fun e2 he2 nt hnt => hall e2 (List.mem_cons_of_mem _ he2) nt hnt⟩

/-- When every normalizable event carries the same hash, the bucket fold
produces at most the single bucket of that hash. -/
theorem foldl_bucketsStep_shape (seen : List String) (H : String) :
    ∀ (events : List TxSendEvent) (acc : List (String × List NormalizedTransfer)),
      (acc = [] ∨ ∃ ts, acc = [(H, ts)]) →
      (∀ e ∈ events, ∀ nt, normalizeTransfer e = some nt → nt.txhash = H) →
      (events.foldl (bucketsStep seen) acc = [] ∨
        ∃ ts, events.foldl (bucketsStep seen) acc = [(H, ts)]) := by
  intro events
  induction events with
  | nil =>
    intro acc hacc _
    simpa using hacc
  | cons e rest ih =>
    intro acc hacc hall
    rw [List.foldl_cons]
    apply ih
    · cases hnorm : normalizeTransfer e with
      | none =>
        simp only [bucketsStep, hnorm]
        exact hacc
      | some nt =>
        simp only [bucketsStep, hnorm]
        by_cases hmem : nt.txhash ∈ seen
        · rw [if_pos hmem]
          exact hacc
        · rw [if_neg hmem]
          right
          have hHnt : nt.txhash = H := hall e (by simp) nt hnorm
          rcases hacc with rfl | ⟨ts, rfl⟩
          · exact ⟨[nt], by simp [bucketsInsert, hHnt]⟩
          · refine ⟨ts ++ [nt], ?_⟩
            unfold bucketsInsert
            rw [hHnt]
            simp
    · intro e2 he2 nt hnt
      exact hall e2 (List.mem_cons_of_mem _ he2) nt hnt

/-- A hash is always a member of the set after inserting it. -/
theorem mem_setInsert_self (l : List String) (x : String) : x ∈ setInsert l x := by
  unfold setInsert
  split
  · assumption
  · simp

/-- Marking a hash that is not in the order list leaves it a member of the
dedup set whenever the capacity is at least one: the single evicted entry,
if any, is the oldest and differs from the freshly marked hash. -/
theorem markSeen_mem_self (cap : Nat) (s : MonitorState) (H : String)
    (hcap : 1 ≤ cap) (hnot : H ∉ s.txOrder) :
    H ∈ (markSeen cap s H).seenTxHashes := by
  unfold markSeen
  by_cases hover : (s.txOrder ++ [H]).length > cap
  · rw [if_pos hover]
    cases horder : s.txOrder with
    | nil =>
      exfalso
      rw [horder] at hover
      simp at hover
      omega
    | cons o rest =>
      have hHo : H ≠ o := by
        intro h
        rw [horder] at hnot
        exact hnot (h ▸ List.mem_cons_self o rest)
      simp only [List.cons_append]
      by_cases ho : o ≠ ""
      · rw [if_pos ho]
        apply List.mem_filter.mpr
        exact ⟨mem_setInsert_self _ _, by simpa using hHo⟩
      · rw [if_neg ho]
        exact mem_setInsert_self _ _
  · rw [if_neg hover]
    exact mem_setInsert_self _ _

/-- C7: when every transfer a frame normalizes to carries the same hash,
the coordinator marks that hash seen after processing its group whether or
not any alert fired, and a second delivery of the same frame after the
first completed produces zero alerts. -/
theorem dedup_second_delivery (cfg : AppConfig) (s0 : MonitorState) (p : Json) (H : String)
    (hwf : ∀ x, x ∈ s0.seenTxHashes ↔ x ∈ s0.txOrder)
    (hcap : 1 ≤ cfg.maxSeenTxHashes)
    (hH : ∀ e ∈ extractTxSendEvents p, ∀ nt, normalizeTransfer e = some nt →
      nt.txhash = H) :
    ((∃ e ∈ extractTxSendEvents p, ∃ nt, normalizeTransfer e = some nt) →
      H ∈ (handleRawMessage cfg s0 (some p)).2.seenTxHashes) ∧
    (handleRawMessage cfg (handleRawMessage cfg s0 (some p)).2 (some p)).1 = [] := by
  by_cases hev : extractTxSendEvents p = []
  · constructor
    · rintro ⟨e, he, _⟩
      rw [hev] at he
      simp at he
    · simp [handleRawMessage, hev]
  · have hevb : (extractTxSendEvents p).isEmpty = false := by
      simpa [List.isEmpty_iff] using hev
    have hrun1 : handleRawMessage cfg s0 (some p) =
        processBuckets cfg s0 (buildBuckets s0.seenTxHashes (extractTxSendEvents p)) := by
      simp [handleRawMessage, hevb]
    rcases foldl_bucketsStep_shape s0.seenTxHashes H (extractTxSendEvents p) []
        (Or.inl rfl) hH with hnil | ⟨ts, hts⟩
    · have hb0nil : buildBuckets s0.seenTxHashes (extractTxSendEvents p) = [] := hnil
      have hstate : (handleRawMessage cfg s0 (some p)).2 = s0 := by
        rw [hrun1, hb0nil]
        rfl
      have hall := ((foldl_bucketsStep_nil_iff s0.seenTxHashes
        (extractTxSendEvents p) []).mp hb0nil).2
      constructor
      · rintro ⟨e, he, nt, hnt⟩
        rw [hstate]
        have hmem := hall e he nt hnt
        rwa [hH e he nt hnt] at hmem
      · rw [hstate, hrun1, hb0nil]
        rfl
    · have hb0eq : buildBuckets s0.seenTxHashes (extractTxSendEvents p) = [(H, ts)] := hts
      have hrun1s : (handleRawMessage cfg s0 (some p)).2 =
          markSeen cfg.maxSeenTxHashes
            { s0 with txContextCache :=
                (getTxContext (cfg.fetchOracle H) s0.txContextCache H).cache } H := by
        rw [hrun1, hb0eq]
        simp [processBuckets, processBucket]
      have hnotseen : H ∉ s0.seenTxHashes := by
        intro hmem
        have hcontra : buildBuckets s0.seenTxHashes (extractTxSendEvents p) = [] := by
          apply (foldl_bucketsStep_nil_iff _ _ _).mpr
          exact ⟨rfl, fun e he nt hnt => by rw [hH e he nt hnt]; exact hmem⟩
        rw [hcontra] at hb0eq
        simp at hb0eq
      have hnotorder : H ∉ s0.txOrder := fun hmem => hnotseen ((hwf H).mpr hmem)
      have hmemfinal : H ∈ (handleRawMessage cfg s0 (some p)).2.seenTxHashes := by
        rw [hrun1s]
        exact markSeen_mem_self _ _ _ hcap (by simpa using hnotorder)
      constructor
      · intro _
        exact hmemfinal
      · have hB2 : buildBuckets
            (handleRawMessage cfg s0 (some p)).2.seenTxHashes (extractTxSendEvents p) = [] := by
          apply (foldl_bucketsStep_nil_iff _ _ _).mpr
          refine ⟨rfl, fun e he nt hnt => ?_⟩
          rw [hH e he nt hnt]
          exact hmemfinal
        generalize hgen : (handleRawMessage cfg s0 (some p)).2 = s1 at hB2 ⊢
        simp [handleRawMessage, hevb, hB2, processBuckets]

/-- Witness for C7 on the concrete scenario frame: after the first
delivery the hash H1 is marked seen and the second delivery of the same
frame produces zero alerts. -/
theorem dedup_second_delivery_witness :
    "H1" ∈ (handleRawMessage c3Config emptyMonitorState (some c3FrameAmended)).2.seenTxHashes ∧
    (handleRawMessage c3Config (handleRawMessage c3Config emptyMonitorState
      (some c3FrameAmended)).2 (some c3FrameAmended)).1 = [] := by
  have hH : ∀ e ∈ extractTxSendEvents c3FrameAmended, ∀ nt,
      normalizeTransfer e = some nt → nt.txhash = "H1" := by
    intro e he nt hnt
    have hlist : extractTxSendEvents c3FrameAmended =
        [⟨"A", "B", "50000000", "uzig", "H1"⟩] := by decide
    rw [hlist] at he
    simp at he
    subst he
    have hnorm : normalizeTransfer (⟨"A", "B", "50000000", "uzig", "H1"⟩ : TxSendEvent) =
        some ⟨"A", "B", 50000000, "uzig", "H1"⟩ := by decide
    rw [hnorm] at hnt
    injection hnt with h2
    rw [← h2]
  have h := dedup_second_delivery c3Config emptyMonitorState c3FrameAmended "H1"
    (fun x => Iff.rfl) (by decide) hH
  refine ⟨h.1 ⟨⟨"A", "B", "50000000", "uzig", "H1"⟩, by decide,
    ⟨"A", "B", 50000000, "uzig", "H1"⟩, by decide⟩, h.2⟩

end Monitor
